import Mathlib

/-!
Verification of the summo-scraper crawl/extraction pipeline.

The definitions below are a shallow embedding of `src/summo_scraper.py` and
`src/robots.py`.  Pure text processing (the pandas string pipelines of
`cleaning_rooms_data`, the regex of `get_base_url`, Python `str.isdigit`) is
translated into executable functions on `List Char`; the stateful parts
(the retry loop of `_fetch_soup`, the robots gate of `__init__`, the
thread-pool aggregation of `scrape`) become explicit state passing, with
I/O outcomes supplied as oracles and raised Python exceptions modelled by
`Except String`.
-/

deriving instance DecidableEq for Except

namespace SummoScraper

/-- Module constant `MAX_RETRIES = 5` (summo_scraper.py line 19). -/
def MAX_RETRIES : Nat := 5

/-- Module constant `DELAY = 1` (summo_scraper.py line 20): the fallback
crawl delay when robots.txt declares none. -/
def DELAY : ℚ := 1

/-- Module constant `TIMEOUT = 10` (summo_scraper.py line 21). -/
def TIMEOUT : Nat := 10

/-! ### Character-list machinery

Executable models of the Python / pandas string primitives used by the
scraper: prefix test, first-occurrence split (`str.split(sep, n=1)` /
column 0 of a full split), global literal replacement (`str.replace`),
substring test, and the numeric conversion of `pd.to_numeric`. -/

/-- Does the pattern (first argument) occur at the head of the text? -/
def startsWithL : List Char → List Char → Bool
  | [], _ => true
  | _ :: _, [] => false
  | p :: ps, c :: cs => if p = c then startsWithL ps cs else false

/-- Split at the first occurrence of the pattern: returns the text before
the first occurrence and, when the pattern occurs, the text after it.
This is the per-value content of pandas `Series.str.split(pat, n=1,
expand=True)` (column 0, and column 1 as `none` for a non-matching value);
its first component is also column 0 of an unbounded `str.split(pat)`. -/
def splitFirstL (pat : List Char) : List Char → List Char × Option (List Char)
  | [] => if startsWithL pat [] then ([], some []) else ([], none)
  | c :: cs =>
    if startsWithL pat (c :: cs) then
      ([], some ((c :: cs).drop pat.length))
    else
      let r := splitFirstL pat cs
      (c :: r.1, r.2)

/-- Replace every (non-overlapping, leftmost-first) occurrence of the
pattern `p :: ps` by `rep`, as Python `str.replace` / pandas
`Series.str.replace` does for a literal pattern. -/
def replaceAllL (p : Char) (ps rep : List Char) : List Char → List Char
  | [] => []
  | c :: cs =>
    if startsWithL (p :: ps) (c :: cs) then
      rep ++ replaceAllL p ps rep ((c :: cs).drop (ps.length + 1))
    else
      c :: replaceAllL p ps rep cs
termination_by l => l.length
decreasing_by
  · simp only [List.length_drop, List.length_cons]
    omega
  · simp only [List.length_cons]
    omega

/-- Does the pattern occur anywhere in the text? -/
def hasSubstrL (pat : List Char) : List Char → Bool
  | [] => startsWithL pat []
  | c :: cs => startsWithL pat (c :: cs) || hasSubstrL pat cs

/-- Decimal value of a digit list (the value `int(s)` gives an all-digit
string, and the integer-part/fraction-part values used by `float`). -/
def digitsValAux (acc : Nat) : List Char → Nat
  | [] => acc
  | c :: cs => digitsValAux (acc * 10 + (c.toNat - '0'.toNat)) cs

/-- Decimal value of a digit list. -/
def digitsVal (cs : List Char) : Nat := digitsValAux 0 cs

/-- Unsigned part of `pd.to_numeric(s, errors="coerce")`: an optional
decimal literal `digits [. digits]` with at least one digit, as accepted
by Python `float`.  (Exponents and surrounding whitespace never occur in
the scraped fields and are out of scope.) -/
def parseUnsigned (cs : List Char) : Option ℚ :=
  match splitFirstL ['.'] cs with
  | (ip, none) =>
    if !ip.isEmpty && ip.all Char.isDigit then some (digitsVal ip) else none
  | (ip, some fp) =>
    if (!ip.isEmpty || !fp.isEmpty) && ip.all Char.isDigit && fp.all Char.isDigit then
      some ((digitsVal ip : ℚ) + (digitsVal fp : ℚ) / (10 : ℚ) ^ fp.length)
    else
      none

/-- Model of `pd.to_numeric(s, errors="coerce")` on one cell: an optional
sign followed by a decimal literal; unparseable text coerces to `none`
(pandas `NaN`). -/
def toNumericL (cs : List Char) : Option ℚ :=
  match cs with
  | '-' :: rest => (parseUnsigned rest).map (fun q => -q)
  | _ => parseUnsigned cs

/-- String wrapper for `toNumericL`. -/
def toNumeric (s : String) : Option ℚ := toNumericL s.data

/-- String wrapper for `splitFirstL`. -/
def splitFirstStr (pat s : String) : String × Option String :=
  let r := splitFirstL pat.data s.data
  (⟨r.1⟩, r.2.map (fun l => ⟨l⟩))

/-- String wrapper for `replaceAllL` (the pattern is non-empty in every
use site; an empty pattern is returned unchanged). -/
def replaceAllStr (pat rep s : String) : String :=
  match pat.data with
  | [] => s
  | p :: ps => ⟨replaceAllL p ps rep.data s.data⟩

/-- Python `str.isdigit` restricted to the ASCII digits that occur in the
scraped pagination links: non-empty and all characters decimal digits. -/
def pyIsdigit (s : String) : Bool := !s.data.isEmpty && s.data.all Char.isDigit

/-- Python `str.strip`: drop whitespace from both ends. -/
def stripL (cs : List Char) : List Char :=
  ((cs.dropWhile Char.isWhitespace).reverse.dropWhile Char.isWhitespace).reverse

/-- String wrapper for `stripL` (the `.strip()` applied to every
extracted element text). -/
def pyStrip (s : String) : String := ⟨stripL s.data⟩

/-! ### PolicyGate (robots.py, summo_scraper.py `__init__`) -/

/-- Outcome of `Robots(url).can_fetch()` and `Robots(url).crawl_delay()`
for the run's URL and client identity, resolved once per run
(robots.py lines 20-24). -/
structure CrawlPolicy where
  allowed : Bool
  crawl_delay : Option ℚ
deriving DecidableEq, Repr

/-- The robots gate of `SummoScraper.__init__` (summo_scraper.py lines
35-41): when `robots.can_fetch()` holds, the resolved delay is
`robots.crawl_delay()` with `DELAY` substituted for `None`; otherwise the
constructor raises `Exception("Disallow crawl.")`. -/
def initScraper (p : CrawlPolicy) : Except String ℚ :=
  if p.allowed then
    .ok (match p.crawl_delay with
         | none => DELAY
         | some d => d)
  else
    .error "Disallow crawl."

/-! ### RateLimitedFetcher (`SummoScraper._fetch_soup`)

The transport is an oracle `fetch : Nat → Except String String` giving the
outcome of the n-th `requests.get` attempt (0-based): `.ok body` for a
2xx response, `.error e` for the `requests.exceptions.RequestException`
raised by a timeout, connection error, or `raise_for_status`.  Each loop
iteration first performs `time.sleep(self.delay)`; the trace records these
observable effects. -/

/-- One observable effect of the retry loop: a `time.sleep(d)` or the
issuing of the n-th `requests.get` attempt. -/
inductive FetchEvent where
  | sleep (d : ℚ)
  | attempt (i : Nat)
deriving DecidableEq, Repr

/-- Is the event a request attempt? -/
def isAttemptEv : FetchEvent → Bool
  | .attempt _ => true
  | _ => false

/-- Is the event a sleep? -/
def isSleepEv : FetchEvent → Bool
  | .sleep _ => true
  | _ => false

/-- The `while True` retry loop of `_fetch_soup` (summo_scraper.py lines
44-60).  `attempt` is the index of the next `requests.get` call and
`retriesLeft = MAX_RETRIES - retry` counts how many times the
`retry < MAX_RETRIES` guard can still succeed.  Returns the loop's result
together with the trace of sleeps and attempts it performed. -/
def fetchLoop (fetch : Nat → Except String String) (delay : ℚ) :
    Nat → Nat → Except String String × List FetchEvent
  | attempt, retriesLeft =>
    let pre := [FetchEvent.sleep delay, FetchEvent.attempt attempt]
    match fetch attempt with
    | .ok body => (.ok body, pre)
    | .error e =>
      match retriesLeft with
      | 0 => (.error e, pre)
      | r + 1 =>
        let rest := fetchLoop fetch delay (attempt + 1) r
        (rest.1, pre ++ rest.2)

/-- `SummoScraper._fetch_soup` (summo_scraper.py lines 43-63): the retry
loop entered with `retry = 0`.  The BeautifulSoup parse of the returned
body is pure and is identified with the body itself. -/
def fetch_soup (fetch : Nat → Except String String) (delay : ℚ) :
    Except String String × List FetchEvent :=
  fetchLoop fetch delay 0 MAX_RETRIES

/-! ### PaginationPlanner (`get_base_url`, `get_max_page_no`, `scrape`) -/

/-- The characters of the regex literal `"&page=[0-9]*"` before its
digit-star part. -/
def pagePat : List Char := ['&', 'p', 'a', 'g', 'e', '=']

/-- Dropping a prefix by a predicate never lengthens a list (used for the
termination of `subPageParam`). -/
theorem dropWhile_length_le (p : Char → Bool) (l : List Char) :
    (l.dropWhile p).length ≤ l.length := by
  induction l with
  | nil => simp
  | cons c cs ih =>
    by_cases h : p c
    · simp [List.dropWhile, h]
      omega
    · simp [List.dropWhile, h]

/-- The scan of `re.sub("&page=[0-9]*", "", url)` (summo_scraper.py line
66): left to right, each occurrence of `&page=` followed by a maximal
(possibly empty) digit run is deleted and scanning resumes after it. -/
def subPageParam : List Char → List Char
  | [] => []
  | c :: cs =>
    if startsWithL pagePat (c :: cs) then
      subPageParam (((c :: cs).drop pagePat.length).dropWhile Char.isDigit)
    else
      c :: subPageParam cs
termination_by l => l.length
decreasing_by
  · have h1 := dropWhile_length_le Char.isDigit ((c :: cs).drop pagePat.length)
    have h2 : pagePat.length = 6 := rfl
    simp only [List.length_drop, List.length_cons, h2] at h1 ⊢
    omega
  · simp only [List.length_cons]
    omega

/-- `SummoScraper.get_base_url` (summo_scraper.py lines 65-67). -/
def get_base_url (url : String) : String := ⟨subPageParam url.data⟩

/-- The `for link in reversed(links)` scan of `get_max_page_no`
(summo_scraper.py lines 85-89), applied to the already-reversed list of
link texts: the first text that is purely numeric gives the page count;
the initial value 1 survives when none is. -/
def maxPageLoop : List String → Nat
  | [] => 1
  | l :: rest => if pyIsdigit l then digitsVal l.data else maxPageLoop rest

/-- `SummoScraper.get_max_page_no` (summo_scraper.py lines 79-91) on the
pagination control's link texts in document order. -/
def get_max_page_no (links : List String) : Nat := maxPageLoop links.reverse

/-- One `{"url": ..., "page_no": ...}` work item appended to `self.items`
by `scrape` (summo_scraper.py line 247). -/
structure PageTask where
  url : String
  page_no : Nat
deriving DecidableEq, Repr

/-- The planning loop of `scrape` (summo_scraper.py lines 243-247):
`for page_no in range(1, self.max_page_no + 1)` append
`base_url + "&page=" + str(page_no)`. -/
def planPages (base_url : String) (max_page_no : Nat) : List PageTask :=
  (List.range max_page_no).map
    (fun i => { url := base_url ++ "&page=" ++ toString (i + 1), page_no := i + 1 })

/-! ### ListingExtractor (`SummoScraper.get_rooms_data`)

The HTML query capability is embedded by giving each `cassetteitem` block
as a record of the lookups the extractor performs: a `find` that can miss
becomes an `Option` (`none` makes the subsequent `.get_text()` raise
`AttributeError`), a `findAll`/`find_all` becomes the list of the texts of
the matched elements (indexing out of range raises `IndexError`).  All
texts carry the raw element text; `.strip()` is applied at extraction. -/

/-- One `tbody` of the `cassetteitem_other` table: its `td` cell texts and
the optional results of the `find` calls issued on it
(summo_scraper.py lines 116-123). -/
structure TbodyE where
  tds : List String
  rentSpan : Option String
  adminSpan : Option String
  depositSpan : Option String
  gratuitySpan : Option String
  madoriSpan : Option String
  mensekiSpan : Option String
  linkHref : Option String
deriving DecidableEq, Repr

/-- One `cassetteitem` block: the optional results of the building-level
`find` calls, the `cassetteitem_detail-text` div texts, the div texts of
the `detail-col3` list item (absent when that `li` is missing), and the
`tbody` list of the `cassetteitem_other` table (absent when the table is
missing) (summo_scraper.py lines 98-111). -/
structure ItemE where
  titleDiv : Option String
  labelDiv : Option String
  col1Li : Option String
  accessDivs : List String
  col3Divs : Option (List String)
  otherTbodys : Option (List TbodyE)
deriving DecidableEq, Repr

/-- Building-level fields shared by every room row of one item
(the `building` dict, summo_scraper.py lines 99-109). -/
structure Building where
  name : String
  category : String
  address : String
  access1 : String
  access2 : String
  access3 : String
  age : String
  stories : String
deriving DecidableEq, Repr

/-- One entry appended to `rooms` (summo_scraper.py lines 113-125): the
building fields merged with one room's fields. -/
structure RawRoom where
  building : Building
  kaisu : String
  rent : String
  admin : String
  deposit : String
  gratuity : String
  madori : String
  menseki : String
  url : String
deriving DecidableEq, Repr

/-- Calling a method on the result of a `find`: `None` raises
`AttributeError`, a found element yields its value. -/
def findE {α : Type} (o : Option α) : Except String α :=
  match o with
  | none => .error "AttributeError"
  | some a => .ok a

/-- Indexing the result list of a `findAll`: out of range raises
`IndexError`. -/
def idxE {α : Type} (l : List α) (i : Nat) : Except String α :=
  match l.get? i with
  | none => .error "IndexError"
  | some a => .ok a

/-- Model of the external `urljoin("https://suumo.jp", href)` call
(summo_scraper.py line 123) for the hrefs the listing markup produces:
a site-relative href is resolved against the origin, an absolute one is
kept.  (General RFC 3986 resolution is an external capability and out of
scope.) -/
def urljoin_suumo (href : String) : String :=
  if startsWithL ['/'] href.data then "https://suumo.jp" ++ href else href

/-- Extraction of one room row from one `tbody` (summo_scraper.py lines
113-125): any missing sub-element raises out of the whole extraction. -/
def extractRoom (b : Building) (tb : TbodyE) : Except String RawRoom := do
  let kaisu ← idxE tb.tds 2
  let rent ← findE tb.rentSpan
  let admin ← findE tb.adminSpan
  let deposit ← findE tb.depositSpan
  let gratuity ← findE tb.gratuitySpan
  let madori ← findE tb.madoriSpan
  let menseki ← findE tb.mensekiSpan
  let href ← findE tb.linkHref
  .ok { building := b
        kaisu := pyStrip kaisu
        rent := pyStrip rent
        admin := pyStrip admin
        deposit := pyStrip deposit
        gratuity := pyStrip gratuity
        madori := pyStrip madori
        menseki := pyStrip menseki
        url := urljoin_suumo href }

/-- The `for tbody in tbodys` loop (summo_scraper.py lines 113-125). -/
def extractTbodys (b : Building) : List TbodyE → Except String (List RawRoom)
  | [] => .ok []
  | tb :: rest => do
    let r ← extractRoom b tb
    let rs ← extractTbodys b rest
    .ok (r :: rs)

/-- Extraction of one `cassetteitem` block (summo_scraper.py lines
98-125): building-level lookups, then one row per `tbody`.  The
`if accesses[i] is not None` guards of lines 105-107 are vacuous in the
source (`find_all` never returns `None` elements); what can fail there is
the indexing itself. -/
def extractItem (it : ItemE) : Except String (List RawRoom) := do
  let name ← findE it.titleDiv
  let category ← findE it.labelDiv
  let address ← findE it.col1Li
  let access1 ← idxE it.accessDivs 0
  let access2 ← idxE it.accessDivs 1
  let access3 ← idxE it.accessDivs 2
  let col3 ← findE it.col3Divs
  let age ← idxE col3 0
  let stories ← idxE col3 1
  let tbodys ← findE it.otherTbodys
  extractTbodys
    { name := pyStrip name
      category := pyStrip category
      address := pyStrip address
      access1 := pyStrip access1
      access2 := pyStrip access2
      access3 := pyStrip access3
      age := pyStrip age
      stories := pyStrip stories }
    tbodys

/-- `SummoScraper.get_rooms_data` (summo_scraper.py lines 93-128) on the
page's `cassetteitem` blocks: the `for item in items` loop, with any
exception raised inside it propagating out of the whole call. -/
def get_rooms_data : List ItemE → Except String (List RawRoom)
  | [] => .ok []
  | it :: rest => do
    let rs ← extractItem it
    let more ← get_rooms_data rest
    .ok (rs ++ more)

/-! ### FieldNormalizer (`SummoScraper.cleaning_rooms_data`)

Each pandas column pipeline of `cleaning_rooms_data` is embedded as a
per-cell function on the raw text.  `pd.to_numeric(..., errors="coerce")`
is `toNumeric`; a pandas `NaN` is `none`. -/

/-- The access pipeline of `cleaning_rooms_data` (summo_scraper.py lines
131-137, identically repeated for slots 2 and 3 at lines 139-153):
split at the first `" 歩"` into `路線i/駅i` and `徒歩i`, delete `分` from
the walk part, then split `路線i/駅i` at the first `/`.  Returns
`(路線i, 駅i, 徒歩i)`; a component a split could not produce is `none`. -/
def normalize_access (s : String) : Option String × Option String × Option String :=
  (some (splitFirstStr "/" (splitFirstStr " 歩" s).1).1,
   (splitFirstStr "/" (splitFirstStr " 歩" s).1).2,
   (splitFirstStr " 歩" s).2.map (fun w => replaceAllStr "分" "" w))

/-- The `家賃`/`敷金`/`礼金` pipeline (summo_scraper.py lines 174-175,
180-184, 192-195, 199-201): delete `万円`, turn `-` into `0`, convert
with `pd.to_numeric(..., errors="coerce")`, multiply by 10000. -/
def normalize_money_man (s : String) : Option ℚ :=
  (toNumeric (replaceAllStr "-" "0" (replaceAllStr "万円" "" s))).map
    (fun q => q * 10000)

/-- The `管理費` pipeline (summo_scraper.py lines 177-178, 193): delete
`円`, turn `-` into `0`, convert; no multiplier. -/
def normalize_admin_fee (s : String) : Option ℚ :=
  toNumeric (replaceAllStr "-" "0" (replaceAllStr "円" "" s))

/-- The `階数` pipeline for the first floor column `階1`
(summo_scraper.py lines 164-172, 190): column 0 of the split on `-`,
then delete `階`, turn `-` into `0` (a no-op after the split), substitute
`B` by `-`, and convert with `pd.to_numeric(..., errors="coerce")`. -/
def normalize_floor1 (kaisu : String) : Option ℚ :=
  toNumericL
    (replaceAllL 'B' [] ['-']
      (replaceAllL '-' [] ['0']
        (replaceAllL '階' [] [] ((splitFirstL ['-'] kaisu.data).1))))

/-! ### CrawlOrchestrator (`SummoScraper.scrape`)

The `as_completed` loop is embedded as a fold over the task results in
their completion order; concurrency of the thread pool is modelled by
quantifying over every permutation of the submitted task list.  A task is
the page URL together with the outcome of its `scrape_summo` call. -/

/-- The completion loop of `scrape` (summo_scraper.py lines 259-267): on
success the task's rows are concatenated onto the aggregate dataset, on
failure the URL and the exception are recorded (the `logger.error` pair)
and the run continues. -/
def aggregate {α : Type} (completions : List (String × Except String (List α))) :
    List α × List (String × String) :=
  completions.foldl
    (fun acc tr =>
      match tr.2 with
      | .ok rows => (acc.1 ++ rows, acc.2)
      | .error e => (acc.1, acc.2 ++ [(tr.1, e)]))
    ([], [])

/-- The run entry point: construction (`__init__`'s robots gate) followed
by `scrape`.  The second component counts the page fetches issued: zero
when construction raises, one `_fetch_soup` call per completed task
otherwise.  A denied policy yields the constructor's exception and no
dataset. -/
def runScraper {α : Type} (p : CrawlPolicy)
    (completions : List (String × Except String (List α))) :
    Except String (List α × List (String × String)) × Nat :=
  match initScraper p with
  | .error e => (.error e, 0)
  | .ok _ => (.ok (aggregate completions), completions.length)

/-! ### Helper lemmas about the string machinery -/

/-- A pattern is a prefix of itself followed by anything. -/
theorem startsWithL_self_append (l t : List Char) :
    startsWithL l (l ++ t) = true := by
  induction l with
  | nil => simp [startsWithL]
  | cons c cs ih => simp [startsWithL, ih]

/-- A non-empty pattern is not a prefix of a text with a different head
character. -/
theorem startsWithL_cons_ne {p c : Char} (ps cs : List Char) (h : p ≠ c) :
    startsWithL (p :: ps) (c :: cs) = false := by
  simp [startsWithL, h]

/-- When the text is at least as long as the pattern, appending more text
does not change the prefix test. -/
theorem startsWithL_append_of_le (pat l t : List Char)
    (h : pat.length ≤ l.length) :
    startsWithL pat (l ++ t) = startsWithL pat l := by
  induction pat generalizing l with
  | nil => simp [startsWithL]
  | cons p ps ih =>
    cases l with
    | nil => simp at h
    | cons c cs =>
      simp only [List.cons_append, startsWithL]
      by_cases hpc : p = c
      · simp only [hpc, if_pos rfl]
        exact ih cs (Nat.le_of_succ_le_succ h)
      · simp [hpc]

/-- A split finds no occurrence in text avoiding the pattern's head
character. -/
theorem splitFirstL_of_not_mem (p : Char) (ps cs : List Char)
    (h : ∀ x ∈ cs, x ≠ p) :
    splitFirstL (p :: ps) cs = (cs, none) := by
  induction cs with
  | nil => simp [splitFirstL, startsWithL]
  | cons c cs ih =>
    have hcp : p ≠ c := fun he => h c (List.mem_cons_self c cs) he.symm
    have hrec := ih (fun x hx => h x (List.mem_cons_of_mem c hx))
    simp [splitFirstL, startsWithL_cons_ne ps cs hcp, hrec]

/-- A split at a pattern whose head character does not occur in the part
before the first genuine occurrence finds exactly that occurrence. -/
theorem splitFirstL_boundary (p : Char) (ps pre rest : List Char)
    (h : ∀ x ∈ pre, x ≠ p) :
    splitFirstL (p :: ps) (pre ++ ((p :: ps) ++ rest)) = (pre, some rest) := by
  induction pre with
  | nil =>
    have hs : startsWithL (p :: ps) ((p :: ps) ++ rest) = true :=
      startsWithL_self_append (p :: ps) rest
    have hdrop : ((p :: ps) ++ rest).drop (p :: ps).length = rest :=
      List.drop_left (p :: ps) rest
    simp only [List.nil_append, List.cons_append] at hs hdrop ⊢
    simp [splitFirstL, hs, hdrop]
  | cons c cs ih =>
    have hcp : p ≠ c := fun he => h c (List.mem_cons_self c cs) he.symm
    have hrec := ih (fun x hx => h x (List.mem_cons_of_mem c hx))
    simp only [List.cons_append]
    simp only [List.cons_append] at hrec
    simp [splitFirstL, startsWithL_cons_ne ps (cs ++ p :: (ps ++ rest)) hcp, hrec]

/-- Replacement is the identity on text avoiding the pattern's head
character. -/
theorem replaceAllL_of_not_mem (p : Char) (ps rep cs : List Char)
    (h : ∀ x ∈ cs, x ≠ p) :
    replaceAllL p ps rep cs = cs := by
  induction cs with
  | nil => simp [replaceAllL]
  | cons c cs ih =>
    have hcp : p ≠ c := fun he => h c (List.mem_cons_self c cs) he.symm
    have hrec := ih (fun x hx => h x (List.mem_cons_of_mem c hx))
    rw [replaceAllL]
    simp [startsWithL_cons_ne ps cs hcp, hrec]

/-- Replacement rewrites the first occurrence of the pattern when the
text before it avoids the pattern's head character, and continues after
it. -/
theorem replaceAllL_boundary (p : Char) (ps rep pre t : List Char)
    (h : ∀ x ∈ pre, x ≠ p) :
    replaceAllL p ps rep (pre ++ ((p :: ps) ++ t)) =
      pre ++ rep ++ replaceAllL p ps rep t := by
  induction pre with
  | nil =>
    have hs : startsWithL (p :: ps) ((p :: ps) ++ t) = true :=
      startsWithL_self_append (p :: ps) t
    have hdrop : ((p :: ps) ++ t).drop (ps.length + 1) = t := by
      have h0 := List.drop_left (p :: ps) t
      simp only [List.length_cons] at h0
      exact h0
    simp only [List.nil_append, List.cons_append] at hs hdrop ⊢
    rw [replaceAllL]
    simp [hs, hdrop]
  | cons c cs ih =>
    have hcp : p ≠ c := fun he => h c (List.mem_cons_self c cs) he.symm
    have hrec := ih (fun x hx => h x (List.mem_cons_of_mem c hx))
    simp only [List.cons_append] at hrec ⊢
    rw [replaceAllL]
    simp [startsWithL_cons_ne ps (cs ++ p :: (ps ++ t)) hcp, hrec]

/-- Replacement on the empty text is empty. -/
theorem replaceAllL_nil (p : Char) (ps rep : List Char) :
    replaceAllL p ps rep [] = [] := by
  simp only [replaceAllL]

/-- A digit character differs from any fixed non-digit character. -/
theorem digit_ne {x : Char} (y : Char) (hy : y.isDigit = false)
    (hx : x.isDigit = true) : x ≠ y := by
  intro he
  rw [he, hy] at hx
  exact Bool.false_ne_true hx

/-- `parseUnsigned` on a non-empty all-digit list yields its decimal
value. -/
theorem parseUnsigned_digits (cs : List Char) (h1 : cs ≠ [])
    (h2 : cs.all Char.isDigit = true) :
    parseUnsigned cs = some (digitsVal cs) := by
  have hnd : ∀ x ∈ cs, x ≠ '.' := by
    intro x hx
    exact digit_ne '.' (by decide) (by
      have := List.all_eq_true.mp h2 x hx
      simpa using this)
  have hne : cs.isEmpty = false := by
    cases cs with
    | nil => exact absurd rfl h1
    | cons c cs => rfl
  rw [parseUnsigned, splitFirstL_of_not_mem '.' [] cs hnd]
  simp [hne, h2]

/-- `toNumericL` on a non-empty all-digit list yields its decimal
value. -/
theorem toNumericL_digits (cs : List Char) (h1 : cs ≠ [])
    (h2 : cs.all Char.isDigit = true) :
    toNumericL cs = some (digitsVal cs) := by
  cases cs with
  | nil => exact absurd rfl h1
  | cons c cs =>
    have hc : c.isDigit = true := by
      have := List.all_eq_true.mp h2 c (List.mem_cons_self c cs)
      simpa using this
    have hcm : c ≠ '-' := digit_ne '-' (by decide) hc
    rw [toNumericL.eq_def]
    have : (match (c :: cs : List Char) with
        | '-' :: rest => (parseUnsigned rest).map (fun q => -q)
        | _ => parseUnsigned (c :: cs)) = parseUnsigned (c :: cs) := by
      cases hcc : c
      split
      · rename_i heq
        rw [List.cons.injEq] at heq
        exact absurd (hcc ▸ heq.1) (hcc ▸ hcm)
      · rfl
    rw [this, parseUnsigned_digits _ h1 h2]

/-- Dropping by a predicate that holds everywhere drops everything. -/
theorem dropWhile_all_eq_nil (p : Char → Bool) (l : List Char)
    (h : l.all p = true) : l.dropWhile p = [] := by
  induction l with
  | nil => rfl
  | cons c cs ih =>
    have hc : p c = true := by
      have := List.all_eq_true.mp h c (List.mem_cons_self c cs)
      simpa using this
    rw [List.dropWhile_cons, if_pos hc]
    exact ih (by
      rw [List.all_eq_true] at h ⊢
      exact fun x hx => h x (List.mem_cons_of_mem c hx))

/-- `&page=` cannot start at the head of a non-empty text that it does not
already start and continue across into appended text that begins with
`&`: every character of `&page=` other than its first differs from `&`,
so a straddling occurrence is impossible. -/
theorem startsWith_pagePat_span (c : Char) (l rest : List Char)
    (h : startsWithL pagePat (c :: l) = false) :
    startsWithL pagePat ((c :: l) ++ '&' :: rest) = false := by
  match l with
  | [] => simp [pagePat, startsWithL]
  | [a] => simp [pagePat, startsWithL]
  | [a, b] => simp [pagePat, startsWithL]
  | [a, b, d] => simp [pagePat, startsWithL]
  | [a, b, d, e] => simp [pagePat, startsWithL]
  | a :: b :: d :: e :: f :: tail =>
    rw [startsWithL_append_of_le pagePat (c :: a :: b :: d :: e :: f :: tail)
      ('&' :: rest) (by simp [pagePat])]
    exact h

/-- The regex deletion of `get_base_url` removes a trailing
`&page=<digits>` fragment and leaves a base free of `&page=` intact. -/
theorem subPageParam_append (b : List Char)
    (hb : hasSubstrL pagePat b = false) (ds : List Char)
    (hds : ds.all Char.isDigit = true) :
    subPageParam (b ++ (pagePat ++ ds)) = b := by
  induction b with
  | nil =>
    have hs : startsWithL pagePat (pagePat ++ ds) = true :=
      startsWithL_self_append pagePat ds
    have hdrop : (pagePat ++ ds).drop pagePat.length = ds :=
      List.drop_left pagePat ds
    simp only [List.nil_append]
    rw [show (pagePat ++ ds : List Char) = '&' :: (['p', 'a', 'g', 'e', '='] ++ ds)
      from rfl]
    rw [subPageParam]
    rw [show ('&' :: (['p', 'a', 'g', 'e', '='] ++ ds) : List Char) = pagePat ++ ds
      from rfl, hs]
    simp only [if_pos rfl, hdrop, dropWhile_all_eq_nil Char.isDigit ds hds]
    simp [subPageParam]
  | cons c b' ih =>
    have hsplit : startsWithL pagePat (c :: b') = false ∧
        hasSubstrL pagePat b' = false := by
      have h0 : (startsWithL pagePat (c :: b') || hasSubstrL pagePat b') = false := hb
      constructor
      · exact (Bool.or_eq_false_iff.mp h0).1
      · exact (Bool.or_eq_false_iff.mp h0).2
    have hspan : startsWithL pagePat (c :: (b' ++ (pagePat ++ ds))) = false :=
      startsWith_pagePat_span c b' (['p', 'a', 'g', 'e', '='] ++ ds) hsplit.1
    have hrec := ih hsplit.2
    simp only [List.cons_append]
    rw [subPageParam]
    simp [hspan, hrec]

/-! ### Helper lemmas about the retry loop -/

/-- The retry loop issues at most one more attempt than it has retries
left. -/
theorem fetchLoop_attempts_le (fetch : Nat → Except String String) (d : ℚ)
    (a r : Nat) :
    ((fetchLoop fetch d a r).2.filter isAttemptEv).length ≤ r + 1 := by
  induction r generalizing a with
  | zero =>
    rw [fetchLoop.eq_def]
    cases hf : fetch a <;> simp [hf, isAttemptEv, isSleepEv, List.filter]
  | succ r ih =>
    rw [fetchLoop.eq_def]
    cases hf : fetch a with
    | ok body => simp [hf, isAttemptEv, isSleepEv, List.filter]
    | error e =>
      have hr := ih (a + 1)
      simp only [hf]
      simp only [List.append_eq, List.nil_append, List.cons_append,
        List.filter_append, List.length_append, List.filter,
        isAttemptEv, isSleepEv]
      simp only [List.filter, isAttemptEv] at hr
      simp only [List.length_cons, List.length_nil]
      omega

/-- Every sleep performed by the retry loop waits exactly the configured
delay: the sleeps of the trace are one `sleep d` per attempt. -/
theorem fetchLoop_sleeps (fetch : Nat → Except String String) (d : ℚ)
    (a r : Nat) :
    (fetchLoop fetch d a r).2.filter isSleepEv =
      List.replicate ((fetchLoop fetch d a r).2.filter isAttemptEv).length
        (FetchEvent.sleep d) := by
  induction r generalizing a with
  | zero =>
    rw [fetchLoop.eq_def]
    cases hf : fetch a <;>
      simp [hf, isAttemptEv, isSleepEv, List.filter, List.replicate]
  | succ r ih =>
    rw [fetchLoop.eq_def]
    cases hf : fetch a with
    | ok body => simp [hf, isAttemptEv, isSleepEv, List.filter, List.replicate]
    | error e =>
      have hrec := ih (a + 1)
      simp only [hf]
      simp only [List.append_eq, List.nil_append, List.cons_append,
        List.filter_append, List.filter, isAttemptEv, isSleepEv,
        List.length_append, List.length_cons, List.length_nil]
      simp only [List.filter, isAttemptEv, isSleepEv] at hrec
      simp [hrec, List.replicate]

/-! ### Helper lemmas about the aggregation fold -/

/-- The successful rows a completion contributes, as the `as_completed`
loop sees them. -/
def okRows {α : Type} (tr : String × Except String (List α)) : Option (List α) :=
  match tr.2 with
  | .ok rows => some rows
  | .error _ => none

/-- The failure record a completion contributes. -/
def failPair {α : Type} (tr : String × Except String (List α)) :
    Option (String × String) :=
  match tr.2 with
  | .ok _ => none
  | .error e => some (tr.1, e)

/-- The aggregation fold, started from any accumulator, appends exactly
the successful rows and exactly the failure records in completion
order. -/
theorem aggregate_go {α : Type}
    (completions : List (String × Except String (List α)))
    (acc : List α × List (String × String)) :
    completions.foldl
      (fun acc tr =>
        match tr.2 with
        | .ok rows => (acc.1 ++ rows, acc.2)
        | .error e => (acc.1, acc.2 ++ [(tr.1, e)]))
      acc =
    (acc.1 ++ (completions.filterMap okRows).flatten,
     acc.2 ++ completions.filterMap failPair) := by
  induction completions generalizing acc with
  | nil => simp
  | cons tr rest ih =>
    obtain ⟨url, res⟩ := tr
    cases res with
    | ok rows =>
      simp only [List.foldl_cons]
      rw [ih]
      simp [okRows, failPair]
    | error e =>
      simp only [List.foldl_cons]
      rw [ih]
      simp [okRows, failPair]

/-- `aggregate` in closed form. -/
theorem aggregate_eq {α : Type}
    (completions : List (String × Except String (List α))) :
    aggregate completions =
      ((completions.filterMap okRows).flatten, completions.filterMap failPair) := by
  have := aggregate_go completions ([], [])
  simpa [aggregate] using this

/-! ### Helper lemmas about the pagination scan -/

/-- The reversed-link scan yields 1 when no link text is purely
numeric. -/
theorem maxPageLoop_of_none (links : List String)
    (h : ∀ l ∈ links, pyIsdigit l = false) : maxPageLoop links = 1 := by
  induction links with
  | nil => rfl
  | cons l rest ih =>
    rw [maxPageLoop, if_neg (by simp [h l (List.mem_cons_self l rest)])]
    exact ih (fun x hx => h x (List.mem_cons_of_mem l hx))

/-! ### Claim theorems -/

/-- C1: for every URL the fetch makes at most 6 attempts, with the
crawl-delay wait applied before every attempt (including the first) and
constant across attempts; a transport that fails on the first 5 attempts
and succeeds on the 6th yields the page body; one that fails all 6
attempts raises the last underlying error, and no 7th attempt is issued
(the trace ends at attempt index 5 in both exhaustive scenarios). -/
theorem fetch_retry_policy (fetch : Nat → Except String String) (d : ℚ)
    (b : String) (err : Nat → String) :
    ((fetch_soup fetch d).2.filter isAttemptEv).length ≤ 6 ∧
    (fetch_soup fetch d).2.filter isSleepEv =
      List.replicate ((fetch_soup fetch d).2.filter isAttemptEv).length
        (FetchEvent.sleep d) ∧
    ((∀ i, i < 5 → fetch i = .error (err i)) → fetch 5 = .ok b →
      fetch_soup fetch d = (.ok b,
        [.sleep d, .attempt 0, .sleep d, .attempt 1, .sleep d, .attempt 2,
         .sleep d, .attempt 3, .sleep d, .attempt 4, .sleep d, .attempt 5])) ∧
    ((∀ i, i ≤ 5 → fetch i = .error (err i)) →
      fetch_soup fetch d = (.error (err 5),
        [.sleep d, .attempt 0, .sleep d, .attempt 1, .sleep d, .attempt 2,
         .sleep d, .attempt 3, .sleep d, .attempt 4, .sleep d, .attempt 5])) := by
  refine ⟨fetchLoop_attempts_le fetch d 0 5, fetchLoop_sleeps fetch d 0 5, ?_, ?_⟩
  · intro hfail hok
    have h0 := hfail 0 (by omega)
    have h1 := hfail 1 (by omega)
    have h2 := hfail 2 (by omega)
    have h3 := hfail 3 (by omega)
    have h4 := hfail 4 (by omega)
    show fetchLoop fetch d 0 MAX_RETRIES = _
    rw [show MAX_RETRIES = 5 from rfl]
    rw [fetchLoop.eq_def]; simp only [h0]
    rw [fetchLoop.eq_def]; simp only [h1]
    rw [fetchLoop.eq_def]; simp only [h2]
    rw [fetchLoop.eq_def]; simp only [h3]
    rw [fetchLoop.eq_def]; simp only [h4]
    rw [fetchLoop.eq_def]; simp only [hok]
    rfl
  · intro hfail
    have h0 := hfail 0 (by omega)
    have h1 := hfail 1 (by omega)
    have h2 := hfail 2 (by omega)
    have h3 := hfail 3 (by omega)
    have h4 := hfail 4 (by omega)
    have h5 := hfail 5 (by omega)
    show fetchLoop fetch d 0 MAX_RETRIES = _
    rw [show MAX_RETRIES = 5 from rfl]
    rw [fetchLoop.eq_def]; simp only [h0]
    rw [fetchLoop.eq_def]; simp only [h1]
    rw [fetchLoop.eq_def]; simp only [h2]
    rw [fetchLoop.eq_def]; simp only [h3]
    rw [fetchLoop.eq_def]; simp only [h4]
    rw [fetchLoop.eq_def]; simp only [h5]
    rfl

/-- An example transport for the retry scenarios: the first five attempts
fail, the sixth succeeds. -/
def exFetch (i : Nat) : Except String String :=
  if i < 5 then .error (toString i) else .ok "body"

/-- Witness for C1: the retry scenarios at a concrete transport. -/
theorem fetch_retry_policy_witness :
    fetch_soup exFetch 1 = (.ok "body",
      [.sleep 1, .attempt 0, .sleep 1, .attempt 1, .sleep 1, .attempt 2,
       .sleep 1, .attempt 3, .sleep 1, .attempt 4, .sleep 1, .attempt 5]) :=
  (fetch_retry_policy exFetch 1 "body" (fun i => toString i)).2.2.1
    (fun i hi => by simp [exFetch, hi])
    (by simp [exFetch])

/-- C2: when the robots policy disallows fetching, the run raises the
constructor's `Disallow crawl.` exception before any page fetch is issued
(zero page fetches) and produces no dataset, for every possible set of
page-task outcomes. -/
theorem policy_denied_aborts_run (p : CrawlPolicy)
    (completions : List (String × Except String (List RawRoom)))
    (h : p.allowed = false) :
    runScraper p completions = (.error "Disallow crawl.", 0) ∧
    ∀ res n, runScraper p completions ≠ (.ok res, n) := by
  have hinit : initScraper p = .error "Disallow crawl." := by
    simp [initScraper, h]
  constructor
  · simp [runScraper, hinit]
  · intro res n hcontra
    simp [runScraper, hinit] at hcontra

/-- Witness for C2: a concrete denied policy. -/
theorem policy_denied_aborts_run_witness :
    runScraper { allowed := false, crawl_delay := none }
      ([] : List (String × Except String (List RawRoom))) =
      (.error "Disallow crawl.", 0) :=
  (policy_denied_aborts_run { allowed := false, crawl_delay := none } [] rfl).1

/-- C9: when the robots policy permits fetching, an absent declared crawl
delay resolves to the fixed default `DELAY = 1`, a declared delay resolves
to itself, and whatever delay is resolved is the one waited before every
subsequent fetch attempt (one sleep of exactly that delay per attempt in
every fetch trace — the run is never unthrottled). -/
theorem delay_resolution (p : CrawlPolicy) (f : Nat → Except String String)
    (hp : p.allowed = true) :
    (p.crawl_delay = none → initScraper p = .ok DELAY ∧ DELAY = 1) ∧
    (∀ dq, p.crawl_delay = some dq → initScraper p = .ok dq) ∧
    (∀ dq, initScraper p = .ok dq →
      (fetch_soup f dq).2.filter isSleepEv =
        List.replicate ((fetch_soup f dq).2.filter isAttemptEv).length
          (FetchEvent.sleep dq)) := by
  refine ⟨?_, ?_, ?_⟩
  · intro hd
    exact ⟨by simp [initScraper, hp, hd], rfl⟩
  · intro dq hd
    simp [initScraper, hp, hd]
  · intro dq _
    exact fetchLoop_sleeps f dq 0 MAX_RETRIES

/-- Witness for C9: a permitted policy with no declared delay resolves to
delay 1. -/
theorem delay_resolution_witness :
    initScraper { allowed := true, crawl_delay := none } = .ok 1 := by
  have h := (delay_resolution { allowed := true, crawl_delay := none }
    (fun _ => .ok "") rfl).1 rfl
  exact h.2 ▸ h.1

/-- C5: the maximum page number scans the pagination control's links from
last to first in document order and takes the first purely-numeric link
text; numeric links 1..12 yield 12; a control with no numeric link yields
1; and appending a numeric link at the end of any control makes it the
result. -/
theorem max_page_no_scan :
    get_max_page_no ((List.range 12).map (fun i => toString (i + 1))) = 12 ∧
    (∀ links : List String, (∀ l ∈ links, pyIsdigit l = false) →
      get_max_page_no links = 1) ∧
    (∀ (xs : List String) (dtext : String), pyIsdigit dtext = true →
      get_max_page_no (xs ++ [dtext]) = digitsVal dtext.data) := by
  refine ⟨by decide, ?_, ?_⟩
  · intro links h
    exact maxPageLoop_of_none links.reverse
      (fun l hl => h l (List.mem_reverse.mp hl))
  · intro xs dtext hd
    rw [get_max_page_no, List.reverse_append]
    simp [maxPageLoop, hd]

/-- Witness for C5: a trailing numeric link wins over earlier text
links. -/
theorem max_page_no_scan_witness :
    get_max_page_no (["prev"] ++ ["7"]) = digitsVal "7".data :=
  max_page_no_scan.2.2 ["prev"] "7" (by decide)

/-- C6: the planner strips a trailing `&page=<n>` query fragment from the
input URL to obtain the base URL (for any base itself free of `&page=`),
and emits exactly the page URLs `base ++ "&page=" ++ n` for the contiguous
1-based sequence `n = 1..M`, in that order, one `PageTask` per page. -/
theorem pagination_planning (base ds : String) (M : Nat)
    (h1 : hasSubstrL pagePat base.data = false)
    (h2 : ds.data.all Char.isDigit = true) :
    get_base_url (base ++ "&page=" ++ ds) = base ∧
    (planPages base M).length = M ∧
    (∀ i, i < M → (planPages base M)[i]? =
      some { url := base ++ "&page=" ++ toString (i + 1), page_no := i + 1 }) := by
  refine ⟨?_, by simp [planPages], ?_⟩
  · have hdata : (base ++ "&page=" ++ ds).data =
        base.data ++ (pagePat ++ ds.data) := by
      rw [String.data_append, String.data_append]
      rw [show ("&page=" : String).data = pagePat from rfl]
      rw [List.append_assoc]
    calc get_base_url (base ++ "&page=" ++ ds)
        = ⟨subPageParam (base.data ++ (pagePat ++ ds.data))⟩ := by
          rw [get_base_url, hdata]
      _ = ⟨base.data⟩ := by rw [subPageParam_append base.data h1 ds.data h2]
      _ = base := rfl
  · intro i hi
    simp [planPages, List.getElem?_map, List.getElem?_range, hi]

/-- Witness for C6: stripping and planning at a concrete search URL. -/
theorem pagination_planning_witness :
    get_base_url ("https://suumo.jp/jj/chintai/?ar=030&bs=040" ++ "&page=" ++ "7") =
      "https://suumo.jp/jj/chintai/?ar=030&bs=040" ∧
    (planPages "https://suumo.jp/jj/chintai/?ar=030&bs=040" 3).length = 3 :=
  have h := pagination_planning "https://suumo.jp/jj/chintai/?ar=030&bs=040" "7" 3
    (by decide) (by decide)
  ⟨h.1, h.2.1⟩

/-- C8: for any static task set whose completions arrive in any order (any
permutation — the thread pool guarantees nothing more), the aggregated
dataset is exactly the concatenated rows of the succeeding tasks (as a
multiset), the failure log is exactly the failing tasks' URL/error pairs,
and a URL/error pair is logged precisely for the tasks that failed; no
failure aborts the aggregation. -/
theorem scrape_aggregation {α : Type}
    (tasks completions : List (String × Except String (List α)))
    (hperm : completions.Perm tasks) :
    (aggregate completions).1.Perm ((tasks.filterMap okRows).flatten) ∧
    (aggregate completions).2.Perm (tasks.filterMap failPair) ∧
    (∀ url e, (url, e) ∈ (aggregate completions).2 ↔
      (url, Except.error e) ∈ tasks) := by
  rw [aggregate_eq]
  refine ⟨?_, ?_, ?_⟩
  · exact List.Perm.flatten (hperm.filterMap okRows)
  · exact hperm.filterMap failPair
  · intro url e
    rw [List.mem_filterMap]
    constructor
    · rintro ⟨⟨u, res⟩, hmem, hfp⟩
      cases res with
      | ok rows => simp [failPair] at hfp
      | error e2 =>
        simp only [failPair] at hfp
        rw [Option.some.injEq, Prod.mk.injEq] at hfp
        obtain ⟨hu, he⟩ := hfp
        subst hu
        subst he
        exact hperm.subset hmem
    · intro hmem
      exact ⟨(url, .error e), hperm.symm.subset hmem, by simp [failPair]⟩

/-- A concrete submitted task list for the aggregation witness. -/
def exTasks : List (String × Except String (List Nat)) :=
  [("u1", .ok [1, 2]), ("u2", .error "boom"), ("u3", .ok [3])]

/-- The same tasks in a different completion order. -/
def exCompletions : List (String × Except String (List Nat)) :=
  [("u3", .ok [3]), ("u2", .error "boom"), ("u1", .ok [1, 2])]

/-- Witness for C8: a concrete interleaving of successes and failures. -/
theorem scrape_aggregation_witness :
    (aggregate exCompletions).1.Perm ((exTasks.filterMap okRows).flatten) ∧
    (aggregate exCompletions).2.Perm (exTasks.filterMap failPair) ∧
    (∀ url e, (url, e) ∈ (aggregate exCompletions).2 ↔
      (url, Except.error e) ∈ exTasks) :=
  scrape_aggregation exTasks exCompletions (by decide)

/-- C4: for every digit numeral N, the rent/deposit/key-money pipeline
maps `N万円` to N × 10000 and `-` to 0; the administration-fee pipeline
maps `N円` to N (no multiplier) and `-` to 0; empty monetary text maps to
`none` (pandas NaN), which stays distinct from the explicit 0 produced by
`-`. -/
theorem money_normalization (s : String) (h1 : s.data ≠ [])
    (h2 : s.data.all Char.isDigit = true) :
    normalize_money_man (s ++ "万円") = some ((digitsVal s.data : ℚ) * 10000) ∧
    normalize_admin_fee (s ++ "円") = some ((digitsVal s.data : ℚ)) ∧
    normalize_money_man "-" = some 0 ∧
    normalize_admin_fee "-" = some 0 ∧
    normalize_money_man "" = none ∧
    normalize_admin_fee "" = none ∧
    normalize_money_man "" ≠ normalize_money_man "-" := by
  have hdig : ∀ x ∈ s.data, x.isDigit = true := by
    intro x hx
    have := List.all_eq_true.mp h2 x hx
    simpa using this
  have hnm : ∀ x ∈ s.data, x ≠ '万' :=
    fun x hx => digit_ne '万' (by decide) (hdig x hx)
  have hny : ∀ x ∈ s.data, x ≠ '円' :=
    fun x hx => digit_ne '円' (by decide) (hdig x hx)
  have hnd : ∀ x ∈ s.data, x ≠ '-' :=
    fun x hx => digit_ne '-' (by decide) (hdig x hx)
  have r2 : replaceAllStr "-" "0" (⟨s.data⟩ : String) = ⟨s.data⟩ := by
    have e : replaceAllStr "-" "0" (⟨s.data⟩ : String) =
        ⟨replaceAllL '-' [] ['0'] s.data⟩ := rfl
    rw [e, replaceAllL_of_not_mem '-' [] ['0'] s.data hnd]
  have r3 : toNumeric (⟨s.data⟩ : String) = some ((digitsVal s.data : ℚ)) := by
    show toNumericL s.data = some ((digitsVal s.data : ℚ))
    exact toNumericL_digits s.data h1 h2
  have cman : replaceAllStr "万円" "" "-" = "-" := by
    have e : replaceAllStr "万円" "" "-" =
        ⟨replaceAllL '万' ['円'] [] ['-']⟩ := rfl
    rw [e, replaceAllL_of_not_mem '万' ['円'] [] ['-'] (by decide)]
  have cyen : replaceAllStr "円" "" "-" = "-" := by
    have e : replaceAllStr "円" "" "-" = ⟨replaceAllL '円' [] [] ['-']⟩ := rfl
    rw [e, replaceAllL_of_not_mem '円' [] [] ['-'] (by decide)]
  have cdash : replaceAllStr "-" "0" "-" = "0" := by
    have e : replaceAllStr "-" "0" "-" = ⟨replaceAllL '-' [] ['0'] ['-']⟩ := rfl
    have e2 : (['-'] : List Char) = [] ++ (('-' :: []) ++ []) := rfl
    rw [e, e2, replaceAllL_boundary '-' [] ['0'] [] [] (by simp), replaceAllL_nil]
    rfl
  have cnil : ∀ (p : Char) (ps : List Char) (rep : String),
      replaceAllStr ⟨p :: ps⟩ rep "" = "" := by
    intro p ps rep
    have e : replaceAllStr ⟨p :: ps⟩ rep "" = ⟨replaceAllL p ps rep.data []⟩ := rfl
    rw [e, replaceAllL_nil]
  have cdash0 : replaceAllStr "-" "0" "" = "" := cnil '-' [] "0"
  have czero : toNumeric "0" = some 0 := by
    show toNumericL ['0'] = some 0
    rw [toNumericL_digits ['0'] (by simp) (by decide)]
    rfl
  have hmdash : normalize_money_man "-" = some 0 := by
    unfold normalize_money_man
    rw [cman, cdash, czero]
    show some ((0 : ℚ) * 10000) = some 0
    norm_num
  have hadash : normalize_admin_fee "-" = some 0 := by
    unfold normalize_admin_fee
    rw [cyen, cdash, czero]
  have hmnil : normalize_money_man "" = none := by
    unfold normalize_money_man
    rw [show replaceAllStr "万円" "" "" = "" from cnil '万' ['円'] "", cdash0]
    rfl
  have hanil : normalize_admin_fee "" = none := by
    unfold normalize_admin_fee
    rw [show replaceAllStr "円" "" "" = "" from cnil '円' [] "", cdash0]
    rfl
  refine ⟨?_, ?_, hmdash, hadash, hmnil, hanil, ?_⟩
  · have e0 : (s ++ "万円").data = s.data ++ (('万' :: ['円']) ++ []) := by
      rw [String.data_append]
      rfl
    have r1 : replaceAllStr "万円" "" (s ++ "万円") = ⟨s.data⟩ := by
      have e : replaceAllStr "万円" "" (s ++ "万円") =
          ⟨replaceAllL '万' ['円'] [] (s ++ "万円").data⟩ := rfl
      rw [e, e0, replaceAllL_boundary '万' ['円'] [] s.data [] hnm, replaceAllL_nil]
      simp
    unfold normalize_money_man
    rw [r1, r2, r3]
    rfl
  · have e0 : (s ++ "円").data = s.data ++ (('円' :: []) ++ []) := by
      rw [String.data_append]
      rfl
    have r1 : replaceAllStr "円" "" (s ++ "円") = ⟨s.data⟩ := by
      have e : replaceAllStr "円" "" (s ++ "円") =
          ⟨replaceAllL '円' [] [] (s ++ "円").data⟩ := rfl
      rw [e, e0, replaceAllL_boundary '円' [] [] s.data [] hny, replaceAllL_nil]
      simp
    unfold normalize_admin_fee
    rw [r1, r2, r3]
  · rw [hmnil, hmdash]
    simp

/-- Witness for C4: the spec's concrete monetary round-trip values. -/
theorem money_normalization_witness :
    normalize_money_man "3万円" = some 30000 ∧
    normalize_admin_fee "3000円" = some 3000 := by
  have h3 := money_normalization "3" (by decide) (by decide)
  have h3000 := money_normalization "3000" (by decide) (by decide)
  have e3 : digitsVal "3".data = 3 := rfl
  have e3000 : digitsVal "3000".data = 3000 := rfl
  rw [e3] at h3
  rw [e3000] at h3000
  refine ⟨h3.1.trans ?_, h3000.2.1.trans ?_⟩ <;> norm_num

/-- C10: the floor pipeline substitutes the basement marker `B` by a
minus sign, so the first floor column of `B<N>階` is the negative integer
-N, and that of a plain `<N>階` is N. -/
theorem basement_floor_negative (s : String) (h1 : s.data ≠ [])
    (h2 : s.data.all Char.isDigit = true) :
    normalize_floor1 ("B" ++ s ++ "階") = some (-(digitsVal s.data : ℚ)) ∧
    normalize_floor1 (s ++ "階") = some ((digitsVal s.data : ℚ)) := by
  have hdig : ∀ x ∈ s.data, x.isDigit = true := by
    intro x hx
    have := List.all_eq_true.mp h2 x hx
    simpa using this
  have hnk : ∀ x ∈ s.data, x ≠ '階' :=
    fun x hx => digit_ne '階' (by decide) (hdig x hx)
  have hnd : ∀ x ∈ s.data, x ≠ '-' :=
    fun x hx => digit_ne '-' (by decide) (hdig x hx)
  have hnb : ∀ x ∈ s.data, x ≠ 'B' :=
    fun x hx => digit_ne 'B' (by decide) (hdig x hx)
  have hnotB : ∀ x ∈ ('B' :: s.data), x ≠ '階' := by
    intro x hx
    rcases List.mem_cons.mp hx with h | h
    · subst h; decide
    · exact hnk x h
  constructor
  · have e0 : ("B" ++ s ++ "階").data =
        ('B' :: s.data) ++ (('階' :: []) ++ []) := by
      rw [String.data_append, String.data_append]
      simp
    have hall : ∀ x ∈ ('B' :: s.data) ++ (('階' :: []) ++ []), x ≠ '-' := by
      intro x hx
      simp only [List.append_nil, List.mem_append, List.mem_cons,
        List.not_mem_nil, or_false] at hx
      rcases hx with h | h
      · rcases h with h | h
        · subst h; decide
        · exact hnd x h
      · subst h; decide
    have hsplit : (splitFirstL ['-'] ("B" ++ s ++ "階").data).1 =
        ('B' :: s.data) ++ (('階' :: []) ++ []) := by
      rw [e0, splitFirstL_of_not_mem '-' [] _ hall]
    unfold normalize_floor1
    rw [hsplit, replaceAllL_boundary '階' [] [] ('B' :: s.data) [] hnotB,
      replaceAllL_nil]
    have e2 : (('B' :: s.data) ++ [] ++ [] : List Char) = 'B' :: s.data := by simp
    rw [e2, replaceAllL_of_not_mem '-' [] ['0'] ('B' :: s.data)
      (fun x hx => by
        rcases List.mem_cons.mp hx with h | h
        · subst h; decide
        · exact hnd x h)]
    have e3 : ('B' :: s.data : List Char) = [] ++ (('B' :: []) ++ s.data) := by simp
    rw [e3, replaceAllL_boundary 'B' [] ['-'] [] s.data (by simp),
      replaceAllL_of_not_mem 'B' [] ['-'] s.data hnb]
    have e4 : ([] ++ ['-'] ++ s.data : List Char) = '-' :: s.data := by simp
    rw [e4]
    have t1 : toNumericL ('-' :: s.data) =
        (parseUnsigned s.data).map (fun q => -q) := rfl
    rw [t1, parseUnsigned_digits s.data h1 h2]
    rfl
  · have e0 : (s ++ "階").data = s.data ++ (('階' :: []) ++ []) := by
      rw [String.data_append]
      rfl
    have hall : ∀ x ∈ s.data ++ (('階' :: []) ++ []), x ≠ '-' := by
      intro x hx
      simp only [List.append_nil, List.mem_append, List.mem_cons,
        List.not_mem_nil, or_false] at hx
      rcases hx with h | h
      · exact hnd x h
      · subst h; decide
    have hsplit : (splitFirstL ['-'] (s ++ "階").data).1 =
        s.data ++ (('階' :: []) ++ []) := by
      rw [e0, splitFirstL_of_not_mem '-' [] _ hall]
    unfold normalize_floor1
    rw [hsplit, replaceAllL_boundary '階' [] [] s.data [] hnk, replaceAllL_nil]
    have e2 : (s.data ++ [] ++ [] : List Char) = s.data := by simp
    rw [e2, replaceAllL_of_not_mem '-' [] ['0'] s.data hnd,
      replaceAllL_of_not_mem 'B' [] ['-'] s.data hnb]
    exact toNumericL_digits s.data h1 h2

/-- C3 counterexample: the claim says non-matching access text yields all
three components absent, but the pipeline leaves the raw text in the line
column: `徒歩圏外` normalizes to `(徒歩圏外, null, null)`, whose first
component is not null. -/
theorem access_nonmatching_not_all_null :
    normalize_access "徒歩圏外" = (some "徒歩圏外", none, none) ∧
    normalize_access "徒歩圏外" ≠ (none, none, none) := by
  exact ⟨rfl, by decide⟩

/-- C3 as amended: access text of the form `line/station 歩N分` (line
without space or slash, station without space, N a digit numeral)
decomposes into `(line, station, N)` — the spec example included — while
non-matching text such as `徒歩圏外` keeps the raw text as the line
component, with only the station and walk-minutes components absent. -/
theorem normalize_access_spec :
    (∀ line sta mins : String,
      (∀ c ∈ line.data, c ≠ ' ' ∧ c ≠ '/') →
      (∀ c ∈ sta.data, c ≠ ' ') →
      mins.data.all Char.isDigit = true →
      normalize_access (line ++ "/" ++ sta ++ " 歩" ++ mins ++ "分") =
        (some line, some sta, some mins)) ∧
    normalize_access ("JR山手線" ++ "/" ++ "渋谷駅" ++ " 歩" ++ "5" ++ "分") =
      (some "JR山手線", some "渋谷駅", some "5") ∧
    digitsVal "5".data = 5 ∧
    normalize_access "徒歩圏外" = (some "徒歩圏外", none, none) := by
  have huniv : ∀ line sta mins : String,
      (∀ c ∈ line.data, c ≠ ' ' ∧ c ≠ '/') →
      (∀ c ∈ sta.data, c ≠ ' ') →
      mins.data.all Char.isDigit = true →
      normalize_access (line ++ "/" ++ sta ++ " 歩" ++ mins ++ "分") =
        (some line, some sta, some mins) := by
    intro line sta mins hline hsta hmins
    have hdigm : ∀ x ∈ mins.data, x.isDigit = true := by
      intro x hx
      have := List.all_eq_true.mp hmins x hx
      simpa using this
    have hnfen : ∀ x ∈ mins.data, x ≠ '分' :=
      fun x hx => digit_ne '分' (by decide) (hdigm x hx)
    have e0 : (line ++ "/" ++ sta ++ " 歩" ++ mins ++ "分").data =
        (line.data ++ '/' :: sta.data) ++
          ((' ' :: ['歩']) ++ (mins.data ++ ['分'])) := by
      simp [String.data_append]
    have hpre : ∀ x ∈ line.data ++ '/' :: sta.data, x ≠ ' ' := by
      intro x hx
      rcases List.mem_append.mp hx with h | h
      · exact (hline x h).1
      · rcases List.mem_cons.mp h with h | h
        · subst h; decide
        · exact hsta x h
    have hs1 : splitFirstL [' ', '歩'] (line ++ "/" ++ sta ++ " 歩" ++ mins ++ "分").data =
        (line.data ++ '/' :: sta.data, some (mins.data ++ ['分'])) := by
      rw [e0]
      exact splitFirstL_boundary ' ' ['歩'] (line.data ++ '/' :: sta.data)
        (mins.data ++ ['分']) hpre
    have q1 : (splitFirstStr " 歩" (line ++ "/" ++ sta ++ " 歩" ++ mins ++ "分")).1 =
        ⟨line.data ++ '/' :: sta.data⟩ := by
      show (⟨(splitFirstL [' ', '歩'] (line ++ "/" ++ sta ++ " 歩" ++ mins ++ "分").data).1⟩ : String) = _
      rw [hs1]
    have q2 : (splitFirstStr " 歩" (line ++ "/" ++ sta ++ " 歩" ++ mins ++ "分")).2 =
        some ⟨mins.data ++ ['分']⟩ := by
      show (splitFirstL [' ', '歩'] (line ++ "/" ++ sta ++ " 歩" ++ mins ++ "分").data).2.map
        (fun l => (⟨l⟩ : String)) = _
      rw [hs1]
      rfl
    have r1 : replaceAllStr "分" "" ⟨mins.data ++ ['分']⟩ = mins := by
      have e : replaceAllStr "分" "" (⟨mins.data ++ ['分']⟩ : String) =
          ⟨replaceAllL '分' [] [] (mins.data ++ ['分'])⟩ := rfl
      have e2 : mins.data ++ ['分'] = mins.data ++ (('分' :: []) ++ []) := by simp
      rw [e, e2, replaceAllL_boundary '分' [] [] mins.data [] hnfen,
        replaceAllL_nil]
      simp only [List.append_nil]
    have hs2 : splitFirstL ['/'] (line.data ++ '/' :: sta.data) =
        (line.data, some sta.data) := by
      have e : line.data ++ '/' :: sta.data =
          line.data ++ (('/' :: []) ++ sta.data) := by simp
      rw [e]
      exact splitFirstL_boundary '/' [] line.data sta.data
        (fun x hx => (hline x hx).2)
    have q3 : (splitFirstStr "/" (⟨line.data ++ '/' :: sta.data⟩ : String)).1 = line := by
      show (⟨(splitFirstL ['/'] (line.data ++ '/' :: sta.data)).1⟩ : String) = line
      rw [hs2]
    have q4 : (splitFirstStr "/" (⟨line.data ++ '/' :: sta.data⟩ : String)).2 =
        some sta := by
      show (splitFirstL ['/'] (line.data ++ '/' :: sta.data)).2.map
        (fun l => (⟨l⟩ : String)) = some sta
      rw [hs2]
      rfl
    unfold normalize_access
    rw [q1, q2, q3, q4]
    simp [r1]
  refine ⟨huniv, ?_, rfl, rfl⟩
  exact huniv "JR山手線" "渋谷駅" "5" (by decide) (by decide) (by decide)

/-- Witness for C3 (amended): the spec's own example through the
universal part. -/
theorem normalize_access_spec_witness :
    normalize_access ("東急東横線" ++ "/" ++ "代官山駅" ++ " 歩" ++ "12" ++ "分") =
      (some "東急東横線", some "代官山駅", some "12") :=
  normalize_access_spec.1 "東急東横線" "代官山駅" "12"
    (by decide) (by decide) (by decide)

/-- Witness for C10: basement floor `B2階` is -2, plain `2階` is 2. -/
theorem basement_floor_negative_witness :
    normalize_floor1 ("B" ++ "2" ++ "階") = some (-2) ∧
    normalize_floor1 ("2" ++ "階") = some 2 := by
  have h := basement_floor_negative "2" (by decide) (by decide)
  have e2 : digitsVal "2".data = 2 := rfl
  rw [e2] at h
  refine ⟨h.1.trans ?_, h.2.trans ?_⟩ <;> norm_num

/-- A fully populated `tbody` of a listing item, as the extractor's
lookups see it. -/
def goodTbody : TbodyE :=
  { tds := ["", "", "2階"]
    rentSpan := some "8.5万円"
    adminSpan := some "3000円"
    depositSpan := some "8.5万円"
    gratuitySpan := some "8.5万円"
    madoriSpan := some "1K"
    mensekiSpan := some "25m2"
    linkHref := some "/chintai/jnc_000012345678/" }

/-- A fully populated `cassetteitem` block. -/
def goodItem : ItemE :=
  { titleDiv := some "サンプルハイツ渋谷"
    labelDiv := some "賃貸アパート"
    col1Li := some "東京都渋谷区神南１"
    accessDivs := ["JR山手線/渋谷駅 歩5分", "東京メトロ副都心線/渋谷駅 歩7分", "京王井の頭線/神泉駅 歩10分"]
    col3Divs := some ["築10年", "2階建"]
    otherTbodys := some [goodTbody] }

/-- The same block with its title element missing (`find` returned
`None`). -/
def badItem : ItemE := { goodItem with titleDiv := none }

/-- The row the extractor produces from `goodItem`. -/
def goodRoom : RawRoom :=
  { building :=
      { name := "サンプルハイツ渋谷"
        category := "賃貸アパート"
        address := "東京都渋谷区神南１"
        access1 := "JR山手線/渋谷駅 歩5分"
        access2 := "東京メトロ副都心線/渋谷駅 歩7分"
        access3 := "京王井の頭線/神泉駅 歩10分"
        age := "築10年"
        stories := "2階建" }
    kaisu := "2階"
    rent := "8.5万円"
    admin := "3000円"
    deposit := "8.5万円"
    gratuity := "8.5万円"
    madori := "1K"
    menseki := "25m2"
    url := "https://suumo.jp/chintai/jnc_000012345678/" }

/-- C7 counterexample: the claim says a missing sub-element only skips
the affected row and the rest of the page still extracts; in the code the
raised `AttributeError` aborts the whole page — on a page whose first
item lacks its title and whose second item is fully populated, extraction
returns no rows at all, although the second item alone extracts fine. -/
theorem missing_subelement_kills_page :
    get_rooms_data [badItem, goodItem] = .error "AttributeError" ∧
    get_rooms_data [goodItem] = .ok [goodRoom] ∧
    get_rooms_data [badItem, goodItem] ≠ .ok [goodRoom] := by
  refine ⟨rfl, rfl, ?_⟩
  intro h
  rw [show get_rooms_data [badItem, goodItem] = .error "AttributeError" from rfl] at h
  exact Except.noConfusion h

/-- C7 as amended: a missing expected sub-element inside a matched item
raises out of `get_rooms_data` and fails the whole page (no row of that
page is produced); the failure is caught and logged per page task by the
orchestrator, not per row. -/
theorem missing_subelement_page_fatal (it : ItemE) (e : String)
    (post : List ItemE) (h : extractItem it = .error e) :
    get_rooms_data (it :: post) = .error e := by
  rw [get_rooms_data, h]
  rfl

/-- Witness for C7 (amended): the title-less item kills its page whatever
follows it. -/
theorem missing_subelement_page_fatal_witness :
    get_rooms_data (badItem :: [goodItem, goodItem]) = .error "AttributeError" :=
  missing_subelement_page_fatal badItem "AttributeError" [goodItem, goodItem] rfl

end SummoScraper
